import Mathlib

/-!
Shallow embedding of the Hespress scraper (`src/scraper.py`, the canonical
revision with postid-keyed dedup) together with theorems checking the
natural-language specification against it.

Python strings are modelled as `List Char` (a Python `str` is a sequence of
Unicode code points).  Python `None`-or-string values are `Option (List Char)`.
The external collaborators (HTTP fetch, HTML parse tree, date parser, SQL
store) are modelled as explicit data: a fetch outcome carries a status code
and a pre-parsed document structure holding exactly the node/attribute lookups
the code performs, and the store is a list of rows with the two UNIQUE columns
(`postid`, `article_url`) enforced by the insert function.
-/

namespace HespressScraper

/-- A Python `str`: a sequence of Unicode code points. -/
abbrev PyStr := List Char

/-- Whitespace as stripped by Python `str.strip()` (ASCII part; the scraper
only ever strips `href`/`title` attribute values). -/
def isPySpace (c : Char) : Bool :=
  c = ' ' || c = '\t' || c = '\n' || c = '\r' || c = '\x0b' || c = '\x0c'

/-- Python `str.strip()`: remove leading and trailing whitespace. -/
def pyStrip (s : PyStr) : PyStr :=
  ((s.dropWhile isPySpace).reverse.dropWhile isPySpace).reverse

/-- Fuelled worker for Python `str.replace`: scan left to right, replacing
each non-overlapping occurrence of `pat`.  One unit of fuel is spent per
step and every step consumes at least one character, so fuel `s.length`
suffices.  (Python's special behaviour for an empty `pat` is not modelled:
the branch guard sends an empty `pat` to the copy branch.  Every pattern in
`MOROCCAN_MONTHS_MAP` is non-empty, so the scraper never hits that case.) -/
def pyReplaceFuel (pat rep : PyStr) : Nat → PyStr → PyStr
  | _, [] => []
  | 0, s => s
  | fuel + 1, c :: cs =>
    if pat ≠ [] ∧ pat <+: (c :: cs) then
      rep ++ pyReplaceFuel pat rep fuel (cs.drop (pat.length - 1))
    else
      c :: pyReplaceFuel pat rep fuel cs

/-- Python `s.replace(pat, rep)` for non-empty `pat`: replace every
non-overlapping occurrence, scanning left to right. -/
def pyReplace (s pat rep : PyStr) : PyStr :=
  pyReplaceFuel pat rep s.length s

/-- `MOROCCAN_MONTHS_MAP` from `scraper.py`: ordered (insertion-order) list of
(Moroccan variant, standard Arabic) month-name pairs. -/
def MOROCCAN_MONTHS_MAP : List (PyStr × PyStr) :=
  [("يناير".data, "يناير".data),
   ("فبراير".data, "فبراير".data),
   ("مارس".data, "مارس".data),
   ("أبريل".data, "أبريل".data),
   ("ماي".data, "مايو".data),
   ("يونيو".data, "يونيو".data),
   ("يوليوز".data, "يوليو".data),
   ("غشت".data, "أغسطس".data),
   ("شتنبر".data, "سبتمبر".data),
   ("أكتوبر".data, "أكتوبر".data),
   ("نونبر".data, "نوفمبر".data),
   ("دجنبر".data, "ديسمبر".data)]

/-- `normalize_moroccan_months` from `scraper.py`: empty input is returned
unchanged (`if not date_text: return date_text`); otherwise each map entry is
applied in order via `str.replace`. -/
def normalize_moroccan_months (date_text : PyStr) : PyStr :=
  if date_text = [] then date_text
  else MOROCCAN_MONTHS_MAP.foldl (fun t p => pyReplace t p.1 p.2) date_text

/-- The `if not date_text` guard in `normalize_moroccan_months` also passes a
Python `None` argument through unchanged; this lifts the function to the
`None`-or-string domain. -/
def normalizeMoroccanMonthsOpt : Option PyStr → Option PyStr
  | none => none
  | some s => some (normalize_moroccan_months s)

/-- The characters of the literal `".html"` in the regex `-([\d]+)\.html$`. -/
def suffixHtml : PyStr := ['.', 'h', 't', 'm', 'l']

/-- Python `re` semantics of the `$` anchor (without `re.MULTILINE`): it
matches at the end of the string or just before a newline at the end of the
string.  Matching a pattern anchored by `$` is therefore suffix matching on
the string with one final newline (if any) removed. -/
def dollarTarget (s : PyStr) : PyStr :=
  if s.getLast? = some '\n' then s.dropLast else s

/-- `extract_post_id_from_url` from `scraper.py`:
`re.search(r"-([\d]+)\.html$", article_url)` succeeds exactly when, in the
`$`-target of the URL, the suffix `.html` is preceded by a non-empty maximal
run of digits which is itself preceded by a hyphen; the captured group is
that digit run.  Returns `""` when there is no match.  (`\d` is modelled as
the ASCII digits, the only digits occurring in the site's URLs.) -/
def extract_post_id_from_url (article_url : PyStr) : PyStr :=
  let t := dollarTarget article_url
  if suffixHtml <:+ t then
    let stem := t.take (t.length - 5)
    let ds := (stem.reverse.takeWhile Char.isDigit).reverse
    if ds ≠ [] ∧ (stem.take (stem.length - ds.length)).getLast? = some '-' then
      ds
    else []
  else []

/-- An `<a class="stretched-link">` node of a listing card: its `href` and
`title` attributes (absent attribute ⇒ `tag.get(attr, "")` yields `""`). -/
structure LinkNode where
  href : Option PyStr
  titleAttr : Option PyStr
deriving DecidableEq

/-- One `<div class="card">` of a listing document, holding exactly the lookups
`parse_listing_page` performs: the text of `span.cat` (as produced by
`get_text(strip=True)`), the primary link node, and the text of
`small.text-muted.time`. -/
structure Card where
  cat : Option PyStr
  link : Option LinkNode
  timeText : Option PyStr
deriving DecidableEq

/-- One entry of the list returned by `parse_listing_page`. -/
structure Summary where
  postid : PyStr
  article_url : PyStr
  category : Option PyStr
  title : PyStr
  date_text_ar : Option PyStr
deriving DecidableEq

/-- The per-card body of the loop in `parse_listing_page`: cards without a
link node are skipped (`continue`), `href`/`title` are read with default `""`
and stripped, cards whose stripped url is empty are skipped, and the postid is
extracted from the url. -/
def cardSummary (div : Card) : Option Summary :=
  match div.link with
  | none => none
  | some link_a =>
    let article_url := pyStrip (link_a.href.getD [])
    let article_title := pyStrip (link_a.titleAttr.getD [])
    if article_url = [] then none
    else some
      { postid := extract_post_id_from_url article_url
        article_url := article_url
        category := div.cat
        title := article_title
        date_text_ar := div.timeText }

/-- The extraction loop of `parse_listing_page` over the `div.card` nodes of a
successfully fetched listing document, in document order. -/
def parse_listing_cards (cards : List Card) : List Summary :=
  cards.filterMap cardSummary

/-- The `span.author` node: text of its first inner `<a>`, when present. -/
structure AuthorSpan where
  a : Option PyStr
deriving DecidableEq

/-- The `<img>` inside the featured-image container, with its `src` attribute
(read via `get("src", "")`). -/
structure ImgNode where
  src : Option PyStr
deriving DecidableEq

/-- The `div.post-thumbnail.featured-img` container. -/
structure FeaturedDiv where
  img : Option ImgNode
deriving DecidableEq

/-- An article detail document, holding exactly the lookups
`parse_article_content` performs.  `article_content` is the text of
`div.article-content` after `script`/`style` subtrees are removed
(`get_text(separator="\n", strip=True)`); `date_post` is the stripped text of
`span.date-post`; `tags_section` is the list of `a.tag_post_tag` texts of
`section.box-tags`, in document order. -/
structure DetailDoc where
  article_content : Option PyStr
  author_span : Option AuthorSpan
  date_post : Option PyStr
  featured_img_div : Option FeaturedDiv
  tags_section : Option (List PyStr)
deriving DecidableEq

/-- The dict returned by `parse_article_content` on a 200 response. -/
structure DetailData where
  author : PyStr
  content : PyStr
  featured_image : PyStr
  date_text_ar : PyStr
  tags : List PyStr
deriving DecidableEq

/-- Field extraction of `parse_article_content` from a fetched document; every
field independently defaults to empty when its node is absent. -/
def parse_detail_fields (doc : DetailDoc) : DetailData :=
  { content := doc.article_content.getD []
    author :=
      match doc.author_span with
      | some sp => sp.a.getD []
      | none => []
    date_text_ar := doc.date_post.getD []
    featured_image :=
      match doc.featured_img_div with
      | some d =>
        match d.img with
        | some img => img.src.getD []
        | none => []
      | none => []
    tags := doc.tags_section.getD [] }

/-- Outcome of `requests.get` on a listing URL: a status code with the parsed
document's cards, or a raised `RequestException`. -/
inductive ListingFetch
  | ok (status : Nat) (cards : List Card)
  | exn
deriving DecidableEq

/-- Outcome of `requests.get` on an article URL. -/
inductive DetailFetch
  | ok (status : Nat) (doc : DetailDoc)
  | exn
deriving DecidableEq

/-- The external collaborators of the pipeline: the HTTP/HTML world (one
listing document per page number, one detail document per article URL —
unchanged for the duration of a run) and `dateparser.parse` with the `ar`
locale, abstracted as a partial map from text to timestamps. -/
structure Env where
  listingPage : Int → ListingFetch
  articlePage : PyStr → DetailFetch
  dateparse : PyStr → Option Int

/-- `parse_listing_page` from `scraper.py`: a transport error or a non-200
status yields `[]`; otherwise the cards are extracted. -/
def parse_listing_page (env : Env) (page_number : Int) : List Summary :=
  match env.listingPage page_number with
  | .exn => []
  | .ok status cards => if status ≠ 200 then [] else parse_listing_cards cards

/-- `parse_article_content` from `scraper.py`: a transport error or a non-200
status yields the empty dict (modelled `none`); otherwise the detail fields
are extracted. -/
def parse_article_content (env : Env) (article_url : PyStr) : Option DetailData :=
  match env.articlePage article_url with
  | .exn => none
  | .ok status doc => if status ≠ 200 then none else some (parse_detail_fields doc)

/-- Python `x or y` on `None`-or-string values: `x` unless it is `None` or
empty, else `y`. -/
def pyOr (x y : Option PyStr) : Option PyStr :=
  match x with
  | some s => if s = [] then y else some s
  | none => y

/-- `parse_arabic_date` from `scraper.py`: `None` and `""` yield `None`;
otherwise the text is normalized and handed to `dateparser.parse`. -/
def parse_arabic_date (dateparse : PyStr → Option Int) : Option PyStr → Option Int
  | none => none
  | some t => if t = [] then none else dateparse (normalize_moroccan_months t)

/-- A row of the `hespress_articles` table (the columns the scraper writes;
`id`/`created_at` are server-assigned and not modelled). -/
structure ArticleRecord where
  postid : PyStr
  article_url : PyStr
  category : Option PyStr
  title : PyStr
  date_text_ar : Option PyStr
  date : Option Int
  author : PyStr
  content : PyStr
  featured_image : PyStr
  tags : List PyStr
deriving DecidableEq

/-- The persisted store: the rows of `hespress_articles`, in insertion order. -/
abbrev DB := List ArticleRecord

/-- `article_exists` from `scraper.py`: an empty postid is treated as not
found without querying; otherwise `SELECT 1 ... WHERE postid = %s`. -/
def article_exists (db : DB) (postid : PyStr) : Bool :=
  if postid = [] then false
  else db.any (fun r => r.postid == postid)

/-- `insert_article` from `scraper.py`: `ON CONFLICT (postid) DO NOTHING`
absorbs a postid collision silently; a collision on the other UNIQUE column
`article_url` raises in SQL, which the surrounding `try/except` logs — in
both cases no row is added.  Otherwise the row is appended. -/
def insert_article (db : DB) (a : ArticleRecord) : DB :=
  if db.any (fun r => r.postid == a.postid) then db
  else if db.any (fun r => r.article_url == a.article_url) then db
  else db ++ [a]

/-- Lines 356–378 of `scraper.py`: fetch the detail page, resolve the
effective raw date (detail page preferred over listing page), parse it, and
assemble the row to insert. -/
def buildArticle (env : Env) (summary : Summary) : ArticleRecord :=
  let detail_data := parse_article_content env summary.article_url
  let date_text_ar := pyOr (detail_data.map (·.date_text_ar)) summary.date_text_ar
  { postid := summary.postid
    article_url := summary.article_url
    category := summary.category
    title := summary.title
    date_text_ar := date_text_ar
    date := parse_arabic_date env.dateparse date_text_ar
    author := (detail_data.map (·.author)).getD []
    content := (detail_data.map (·.content)).getD []
    featured_image := (detail_data.map (·.featured_image)).getD []
    tags := (detail_data.map (·.tags)).getD [] }

/-- The per-summary body of the loop in `scrape_hespress`: the dedup gate
(`article_exists` ⇒ `continue`), else build the row and insert it. -/
def processSummary (env : Env) (db : DB) (summary : Summary) : DB :=
  if article_exists db summary.postid then db
  else insert_article db (buildArticle env summary)

/-- Processing of one listing page's summaries, in order. -/
def processPage (env : Env) (db : DB) (page_num : Int) : DB :=
  (parse_listing_page env page_num).foldl (processSummary env) db

/-- The pages visited by `scrape_hespress`: the model of
`range(start_page, end_page + step, step)` with
`step = -1 if start_page > end_page else 1`.  For `start_page > end_page`
this is `range(start_page, end_page - 1, -1)`, i.e. the `start_page - end_page + 1`
values `start_page, start_page - 1, …, end_page`; otherwise it is
`range(start_page, end_page + 1, 1)`, i.e. `start_page, …, end_page`. -/
def pageSequence (start_page end_page : Int) : List Int :=
  if start_page > end_page then
    (List.range (start_page - end_page + 1).toNat).map (fun i : Nat => start_page - (i : Int))
  else
    (List.range (end_page - start_page + 1).toNat).map (fun i : Nat => start_page + (i : Int))

/-- `scrape_hespress` from `scraper.py`, returning the final store together
with `total_articles_fetched`.  An empty summary list makes the loop
`continue`; otherwise the count grows by the page's summary count and each
summary is processed in order. -/
def scrape_hespress (env : Env) (start_page end_page : Int) (db : DB) : DB × Nat :=
  (pageSequence start_page end_page).foldl
    (fun acc page_num =>
      let articles_summaries := parse_listing_page env page_num
      if articles_summaries = [] then acc
      else (articles_summaries.foldl (processSummary env) acc.1,
            acc.2 + articles_summaries.length))
    (db, 0)

/-! ## Helper lemmas about the string model -/

theorem pyReplaceFuel_of_not_infixed (pat rep : PyStr) :
    ∀ (fuel : Nat) (s : PyStr), ¬ pat <:+: s → pyReplaceFuel pat rep fuel s = s := by
  intro fuel
  induction fuel with
  | zero => intro s _; cases s <;> rfl
  | succ f ih =>
    intro s h
    cases s with
    | nil => rfl
    | cons c cs =>
      rw [pyReplaceFuel, if_neg, ih cs]
      · intro hin
        rcases hin with ⟨l₁, l₂, hl⟩
        exact h ⟨c :: l₁, l₂, by rw [← hl]; rfl⟩
      · rintro ⟨-, hpre⟩
        exact h hpre.isInfix

theorem pyReplace_of_not_infixed {pat : PyStr} (rep : PyStr) {s : PyStr}
    (h : ¬ pat <:+: s) : pyReplace s pat rep = s :=
  pyReplaceFuel_of_not_infixed pat rep s.length s h

theorem foldl_pyReplace_of_no_variant :
    ∀ (l : List (PyStr × PyStr)) (s : PyStr), (∀ p ∈ l, ¬ p.1 <:+: s) →
      l.foldl (fun t p => pyReplace t p.1 p.2) s = s := by
  intro l
  induction l with
  | nil => intro s _; rfl
  | cons p ps ih =>
    intro s h
    rw [List.foldl_cons, pyReplace_of_not_infixed p.2 (h p (by simp))]
    exact ih s fun q hq => h q (by simp [hq])

theorem takeWhile_append_of_all {p : Char → Bool} :
    ∀ (l : List Char) (a : Char) (r : List Char), (∀ x ∈ l, p x = true) → p a = false →
      (l ++ a :: r).takeWhile p = l := by
  intro l
  induction l with
  | nil => intro a r _ ha; simp [List.takeWhile_cons, ha]
  | cons x xs ih =>
    intro a r h ha
    rw [List.cons_append, List.takeWhile_cons, if_pos (h x (by simp))]
    rw [ih a r (fun y hy => h y (by simp [hy])) ha]

/-! ## Helper lemmas about post-id extraction -/

theorem extract_of_target (u pre ds : PyStr) (h1 : ds ≠ [])
    (h2 : ∀ c ∈ ds, c.isDigit) (ht : dollarTarget u = (pre ++ ['-'] ++ ds) ++ suffixHtml) :
    extract_post_id_from_url u = ds := by
  simp only [extract_post_id_from_url]
  rw [ht, if_pos (List.suffix_append _ _)]
  have hlen : ((pre ++ ['-'] ++ ds) ++ suffixHtml).length - 5 = (pre ++ ['-'] ++ ds).length := by
    simp [suffixHtml]; omega
  rw [hlen, List.take_left]
  have hrev : (pre ++ ['-'] ++ ds).reverse = ds.reverse ++ '-' :: pre.reverse := by
    simp
  rw [hrev, takeWhile_append_of_all _ _ _
    (fun x hx => h2 x (List.mem_reverse.mp hx)) (by decide), List.reverse_reverse]
  have hpre : (pre ++ ['-'] ++ ds).length - ds.length = (pre ++ ['-']).length := by
    simp; omega
  rw [if_pos ⟨h1, by rw [hpre, List.take_left, List.getLast?_concat]⟩]

theorem getLast?_append_suffixHtml (x : PyStr) : (x ++ suffixHtml).getLast? = some 'l' := by
  simp [suffixHtml]

theorem dollarTarget_html (x : PyStr) : dollarTarget (x ++ suffixHtml) = x ++ suffixHtml := by
  rw [dollarTarget, if_neg]
  rw [getLast?_append_suffixHtml]
  decide

theorem dollarTarget_html_nl (x : PyStr) :
    dollarTarget ((x ++ suffixHtml) ++ ['\n']) = x ++ suffixHtml := by
  rw [dollarTarget, if_pos (List.getLast?_concat _), List.dropLast_concat]

theorem extract_post_id_sound (url : PyStr) (h : extract_post_id_from_url url ≠ []) :
    ∃ pre ds, ds ≠ [] ∧ (∀ c ∈ ds, c.isDigit) ∧ extract_post_id_from_url url = ds ∧
      (url = pre ++ ['-'] ++ ds ++ suffixHtml ∨
       url = pre ++ ['-'] ++ ds ++ suffixHtml ++ ['\n']) := by
  by_cases hs : suffixHtml <:+ dollarTarget url
  case neg =>
    exfalso; apply h
    simp only [extract_post_id_from_url]
    rw [if_neg hs]
  obtain ⟨A, hA⟩ := hs
  have hsuf : suffixHtml <:+ dollarTarget url := ⟨A, hA⟩
  have hstem : (dollarTarget url).take ((dollarTarget url).length - 5) = A := by
    rw [← hA]
    have h5 : (A ++ suffixHtml).length - 5 = A.length := by simp [suffixHtml]
    rw [h5, List.take_left]
  set ds := (A.reverse.takeWhile Char.isDigit).reverse with hds_def
  set B := (A.reverse.dropWhile Char.isDigit).reverse with hB_def
  have hAsplit : A = B ++ ds := by
    rw [hB_def, hds_def, ← List.reverse_append, List.takeWhile_append_dropWhile,
      List.reverse_reverse]
  have hBtake : A.take (A.length - ds.length) = B := by
    have hl : A.length - ds.length = B.length := by
      conv_lhs => rw [hAsplit]
      simp
    rw [hl]
    conv_lhs => rw [hAsplit]
    exact List.take_left _ _
  by_cases hc : ds ≠ [] ∧ (A.take (A.length - ds.length)).getLast? = some '-'
  case neg =>
    exfalso; apply h
    simp only [extract_post_id_from_url]
    rw [if_pos hsuf, hstem, if_neg hc]
  obtain ⟨h1, hlast⟩ := hc
  rw [hBtake] at hlast
  have hBdecomp : B.dropLast ++ ['-'] = B :=
    List.dropLast_append_getLast? '-' (Option.mem_def.mpr hlast)
  have hx : extract_post_id_from_url url = ds := by
    simp only [extract_post_id_from_url]
    rw [if_pos hsuf, hstem, if_pos ⟨h1, by rw [hBtake]; exact hlast⟩]
  have hA2 : A = B.dropLast ++ ['-'] ++ ds := by
    rw [hBdecomp]; exact hAsplit
  refine ⟨B.dropLast, ds, h1, ?_, hx, ?_⟩
  · intro c hc'
    exact List.mem_takeWhile_imp (List.mem_reverse.mp (hds_def ▸ hc'))
  · by_cases hnl : url.getLast? = some '\n'
    · right
      have hdt : dollarTarget url = url.dropLast := by rw [dollarTarget, if_pos hnl]
      rw [hdt] at hA
      have hurl : url.dropLast ++ ['\n'] = url :=
        List.dropLast_append_getLast? '\n' (Option.mem_def.mpr hnl)
      rw [← hurl, ← hA, hA2]
    · left
      have hdt : dollarTarget url = url := by rw [dollarTarget, if_neg hnl]
      rw [hdt] at hA
      rw [← hA, hA2]

/-! ## Helper lemmas about the pipeline -/

theorem scrape_hespress_foldl (env : Env) :
    ∀ (pages : List Int) (db : DB) (n : Nat),
      pages.foldl
        (fun acc page_num =>
          let articles_summaries := parse_listing_page env page_num
          if articles_summaries = [] then acc
          else (articles_summaries.foldl (processSummary env) acc.1,
                acc.2 + articles_summaries.length)) (db, n)
      = (pages.foldl (processPage env) db,
         n + (pages.map (fun p => (parse_listing_page env p).length)).sum) := by
  intro pages
  induction pages with
  | nil => intro db n; simp
  | cons p ps ih =>
    intro db n
    simp only [List.foldl_cons, List.map_cons, List.sum_cons]
    by_cases h : parse_listing_page env p = []
    · rw [if_pos h, ih db n]
      rw [show processPage env db p = db by simp [processPage, h]]
      rw [h]
      simp
    · rw [if_neg h, ih]
      rw [show (parse_listing_page env p).foldl (processSummary env) db
            = processPage env db p from rfl]
      rw [Nat.add_assoc]

theorem scrape_hespress_spec (env : Env) (start_page end_page : Int) (db : DB) :
    scrape_hespress env start_page end_page db
      = ((pageSequence start_page end_page).foldl (processPage env) db,
         ((pageSequence start_page end_page).map
            (fun p => (parse_listing_page env p).length)).sum) := by
  rw [scrape_hespress, scrape_hespress_foldl env _ db 0, Nat.zero_add]

theorem mem_insert_article {db : DB} {a r : ArticleRecord} (h : r ∈ db) :
    r ∈ insert_article db a := by
  unfold insert_article
  split
  · exact h
  · split
    · exact h
    · exact List.mem_append_left _ h

theorem insert_article_of_conflict {db : DB} {a : ArticleRecord}
    (h : (∃ r ∈ db, r.postid = a.postid) ∨ (∃ r ∈ db, r.article_url = a.article_url)) :
    insert_article db a = db := by
  unfold insert_article
  rcases h with ⟨r, hr, he⟩ | ⟨r, hr, he⟩
  · rw [if_pos (List.any_eq_true.mpr ⟨r, hr, by simp [he]⟩)]
  · by_cases hp : db.any (fun r => r.postid == a.postid)
    · rw [if_pos hp]
    · rw [if_neg hp, if_pos (List.any_eq_true.mpr ⟨r, hr, by simp [he]⟩)]

theorem article_exists_iff {db : DB} {pid : PyStr} :
    article_exists db pid = true ↔ pid ≠ [] ∧ ∃ r ∈ db, r.postid = pid := by
  unfold article_exists
  split
  · rename_i h
    simp [h]
  · rename_i h
    simp [List.any_eq_true, h]

theorem buildArticle_postid (env : Env) (s : Summary) :
    (buildArticle env s).postid = s.postid := rfl

theorem buildArticle_url (env : Env) (s : Summary) :
    (buildArticle env s).article_url = s.article_url := rfl

/-- After a summary has been processed, some persisted row shares its postid
or its url (the two UNIQUE columns). -/
def covers (db : DB) (s : Summary) : Prop :=
  (∃ r ∈ db, r.postid = s.postid) ∨ (∃ r ∈ db, r.article_url = s.article_url)

theorem processSummary_mem {env : Env} {db : DB} {s : Summary} {r : ArticleRecord}
    (h : r ∈ db) : r ∈ processSummary env db s := by
  unfold processSummary
  split
  · exact h
  · exact mem_insert_article h

theorem covers_mono {db db' : DB} {s : Summary}
    (hsub : ∀ r ∈ db, r ∈ db') (h : covers db s) : covers db' s := by
  rcases h with ⟨r, hr, he⟩ | ⟨r, hr, he⟩
  · exact .inl ⟨r, hsub r hr, he⟩
  · exact .inr ⟨r, hsub r hr, he⟩

theorem processSummary_covers (env : Env) (db : DB) (s : Summary) :
    covers (processSummary env db s) s := by
  unfold processSummary
  by_cases hex : article_exists db s.postid
  · rw [if_pos hex]
    obtain ⟨-, r, hr, he⟩ := article_exists_iff.mp hex
    exact .inl ⟨r, hr, he⟩
  · rw [if_neg hex]
    unfold insert_article
    by_cases hp : db.any (fun r => r.postid == (buildArticle env s).postid)
    · rw [if_pos hp]
      obtain ⟨r, hr, he⟩ := List.any_eq_true.mp hp
      exact .inl ⟨r, hr, by simpa [buildArticle_postid] using he⟩
    · rw [if_neg hp]
      by_cases hu : db.any (fun r => r.article_url == (buildArticle env s).article_url)
      · rw [if_pos hu]
        obtain ⟨r, hr, he⟩ := List.any_eq_true.mp hu
        exact .inr ⟨r, hr, by simpa [buildArticle_url] using he⟩
      · rw [if_neg hu]
        exact .inl ⟨buildArticle env s, List.mem_append_right _ (by simp),
          buildArticle_postid _ _⟩

theorem processSummary_of_covers {env : Env} {db : DB} {s : Summary}
    (h : covers db s) : processSummary env db s = db := by
  unfold processSummary
  by_cases hex : article_exists db s.postid
  · rw [if_pos hex]
  · rw [if_neg hex]
    apply insert_article_of_conflict
    rcases h with ⟨r, hr, he⟩ | ⟨r, hr, he⟩
    · exact .inl ⟨r, hr, he.trans (buildArticle_postid env s).symm⟩
    · exact .inr ⟨r, hr, he.trans (buildArticle_url env s).symm⟩

theorem foldl_processSummary_mem {env : Env} :
    ∀ (sums : List Summary) (db : DB) (r : ArticleRecord),
      r ∈ db → r ∈ sums.foldl (processSummary env) db := by
  intro sums
  induction sums with
  | nil => intro db r h; exact h
  | cons t ts ih =>
    intro db r h
    exact ih _ r (processSummary_mem h)

theorem foldl_processSummary_covers {env : Env} :
    ∀ (sums : List Summary) (db : DB), ∀ s ∈ sums,
      covers (sums.foldl (processSummary env) db) s := by
  intro sums
  induction sums with
  | nil => intro db s h; cases h
  | cons t ts ih =>
    intro db s h
    rcases List.mem_cons.mp h with rfl | hts
    · exact covers_mono (fun r hr => foldl_processSummary_mem ts _ r hr)
        (processSummary_covers env db s)
    · exact ih _ s hts

theorem foldl_processSummary_of_covers {env : Env} :
    ∀ (sums : List Summary) (db : DB), (∀ s ∈ sums, covers db s) →
      sums.foldl (processSummary env) db = db := by
  intro sums
  induction sums with
  | nil => intro db _; rfl
  | cons t ts ih =>
    intro db h
    rw [List.foldl_cons, processSummary_of_covers (h t (by simp))]
    exact ih db fun s hs => h s (by simp [hs])

theorem processPage_mem {env : Env} {db : DB} {p : Int} {r : ArticleRecord}
    (h : r ∈ db) : r ∈ processPage env db p :=
  foldl_processSummary_mem _ _ _ h

theorem foldl_processPage_mem {env : Env} :
    ∀ (pages : List Int) (db : DB) (r : ArticleRecord),
      r ∈ db → r ∈ pages.foldl (processPage env) db := by
  intro pages
  induction pages with
  | nil => intro db r h; exact h
  | cons p ps ih =>
    intro db r h
    exact ih _ r (processPage_mem h)

theorem foldl_processPage_covers {env : Env} :
    ∀ (pages : List Int) (db : DB), ∀ p ∈ pages, ∀ s ∈ parse_listing_page env p,
      covers (pages.foldl (processPage env) db) s := by
  intro pages
  induction pages with
  | nil => intro db p h; cases h
  | cons q qs ih =>
    intro db p hp s hs
    rcases List.mem_cons.mp hp with rfl | hqs
    · exact covers_mono (fun r hr => foldl_processPage_mem qs _ r hr)
        (foldl_processSummary_covers _ db s hs)
    · exact ih _ p hqs s hs

theorem foldl_processPage_of_covers {env : Env} :
    ∀ (pages : List Int) (db : DB),
      (∀ p ∈ pages, ∀ s ∈ parse_listing_page env p, covers db s) →
      pages.foldl (processPage env) db = db := by
  intro pages
  induction pages with
  | nil => intro db _; rfl
  | cons q qs ih =>
    intro db h
    rw [List.foldl_cons,
      show processPage env db q = db from
        foldl_processSummary_of_covers _ db (fun s hs => h q (by simp) s hs)]
    exact ih db fun p hp s hs => h p (by simp [hp]) s hs

theorem insert_article_emptyCount {db : DB} {a : ArticleRecord}
    (h : db.countP (fun r => decide (r.postid = [])) ≤ 1) :
    (insert_article db a).countP (fun r => decide (r.postid = [])) ≤ 1 := by
  unfold insert_article
  split
  · exact h
  · split
    · exact h
    · rename_i hp hu
      rw [List.countP_append]
      by_cases ha : a.postid = []
      · have hz : db.countP (fun r => decide (r.postid = [])) = 0 := by
          rw [List.countP_eq_zero]
          intro r hr
          simp only [decide_eq_true_eq]
          intro he
          exact hp (List.any_eq_true.mpr ⟨r, hr, by simp [he, ha]⟩)
        rw [hz]
        simp [List.countP_cons, ha]
      · simp [List.countP_cons, ha]
        omega

theorem processSummary_emptyCount {env : Env} {db : DB} {s : Summary}
    (h : db.countP (fun r => decide (r.postid = [])) ≤ 1) :
    (processSummary env db s).countP (fun r => decide (r.postid = [])) ≤ 1 := by
  unfold processSummary
  split
  · exact h
  · exact insert_article_emptyCount h

theorem foldl_processSummary_emptyCount {env : Env} :
    ∀ (sums : List Summary) (db : DB),
      db.countP (fun r => decide (r.postid = [])) ≤ 1 →
      (sums.foldl (processSummary env) db).countP (fun r => decide (r.postid = [])) ≤ 1 := by
  intro sums
  induction sums with
  | nil => intro db h; exact h
  | cons t ts ih => intro db h; exact ih _ (processSummary_emptyCount h)

theorem foldl_processPage_emptyCount {env : Env} :
    ∀ (pages : List Int) (db : DB),
      db.countP (fun r => decide (r.postid = [])) ≤ 1 →
      (pages.foldl (processPage env) db).countP (fun r => decide (r.postid = [])) ≤ 1 := by
  intro pages
  induction pages with
  | nil => intro db h; exact h
  | cons q qs ih => intro db h; exact ih _ (foldl_processSummary_emptyCount _ _ h)

/-! ## A concrete sample world, used for witnesses and counterexamples -/

/-- The detail document whose every lookup fails (all nodes absent). -/
def emptyDoc : DetailDoc := ⟨none, none, none, none, none⟩

def urlAlpha : PyStr := "https://www.hespress.com/politique/alpha-101.html".data

def urlBeta : PyStr := "https://www.hespress.com/sport/beta-202.html".data

def docBeta : DetailDoc :=
  { article_content := some "نص المقال".data
    author_span := some ⟨some "كاتب".data⟩
    date_post := some "السبت 11 يناير 2025".data
    featured_img_div := some ⟨some ⟨some "https://img/beta.jpg".data⟩⟩
    tags_section := some ["رياضة".data] }

/-- A sample world: listing page 1 carries two cards (alpha, beta); the alpha
detail page returns status 404, the beta detail page status 200. -/
def envSample : Env :=
  { listingPage := fun p =>
      if p = 1 then
        .ok 200
          [{ cat := some "politique".data
             link := some { href := some urlAlpha, titleAttr := some "Alpha".data }
             timeText := some "الجمعة 10 يناير 2025".data },
           { cat := some "sport".data
             link := some { href := some urlBeta, titleAttr := some "Beta".data }
             timeText := some "الخميس 9 يناير 2025".data }]
      else .ok 404 []
    articlePage := fun u =>
      if u = urlAlpha then .ok 404 emptyDoc
      else if u = urlBeta then .ok 200 docBeta
      else .exn
    dateparse := fun _ => some 20250110 }

def sumAlpha : Summary :=
  { postid := "101".data, article_url := urlAlpha, category := some "politique".data,
    title := "Alpha".data, date_text_ar := some "الجمعة 10 يناير 2025".data }

def sumBeta : Summary :=
  { postid := "202".data, article_url := urlBeta, category := some "sport".data,
    title := "Beta".data, date_text_ar := some "الخميس 9 يناير 2025".data }

/-! ## The claims -/

/-- C1 (counterexample).  The claim says a 404 detail fetch makes the article
be skipped with no record written.  In the sample world the alpha article's
detail fetch returns 404, yet after the run a record with the alpha URL is in
the store (and the run did proceed: both articles have records). -/
theorem detail_404_record_still_written :
    envSample.articlePage urlAlpha = .ok 404 emptyDoc ∧
    (∃ r ∈ (scrape_hespress envSample 1 1 []).1, r.article_url = urlAlpha) ∧
    (scrape_hespress envSample 1 1 []).1.length = 2 := by decide

/-- C1 (amended).  When a detail-page fetch returns a non-200 status, no
exception propagates and the run proceeds, but the article is NOT skipped:
`parse_article_content` returns the empty detail, and a record built from the
listing summary alone — empty author/content/image/tags, raw date taken from
the listing — is still handed to the store (subject to the usual conflict
no-op). -/
theorem detail_non200_inserts_summary_record (env : Env) (db : DB) (s : Summary)
    (status : Nat) (doc : DetailDoc)
    (hfetch : env.articlePage s.article_url = .ok status doc) (hst : status ≠ 200)
    (hnew : article_exists db s.postid = false) :
    parse_article_content env s.article_url = none ∧
    processSummary env db s =
      insert_article db
        { postid := s.postid, article_url := s.article_url, category := s.category,
          title := s.title, date_text_ar := s.date_text_ar,
          date := parse_arabic_date env.dateparse s.date_text_ar,
          author := [], content := [], featured_image := [], tags := [] } := by
  have hpc : parse_article_content env s.article_url = none := by
    simp [parse_article_content, hfetch, hst]
  refine ⟨hpc, ?_⟩
  unfold processSummary
  rw [if_neg (by rw [hnew]; exact Bool.false_ne_true)]
  congr 1
  simp [buildArticle, hpc, pyOr]

/-- C1 (witness): the amended statement at the sample world's alpha article. -/
theorem detail_non200_inserts_summary_record_witness :
    parse_article_content envSample sumAlpha.article_url = none ∧
    processSummary envSample [] sumAlpha =
      insert_article []
        { postid := sumAlpha.postid, article_url := sumAlpha.article_url,
          category := sumAlpha.category, title := sumAlpha.title,
          date_text_ar := sumAlpha.date_text_ar,
          date := parse_arabic_date envSample.dateparse sumAlpha.date_text_ar,
          author := [], content := [], featured_image := [], tags := [] } :=
  detail_non200_inserts_summary_record envSample [] sumAlpha 404 emptyDoc
    (by decide) (by decide) (by decide)

/-- C2: `scrape_hespress` returns the total number of article summaries seen
across all listing pages of the range — the sum of the per-page summary
counts, counting summaries later skipped by the dedup gate. -/
theorem run_counts_all_summaries_seen (env : Env) (start_page end_page : Int) (db : DB) :
    (scrape_hespress env start_page end_page db).2
      = ((pageSequence start_page end_page).map
          (fun p => (parse_listing_page env p).length)).sum := by
  rw [scrape_hespress_spec]

/-- C3: running the pipeline twice over the same page range (same unchanged
external world `env`) leaves the persisted record set exactly as after one
run — the second run adds zero rows; moreover a summary whose postid the
existence check finds is skipped without touching the store, and an insert
whose key is already present is a silent no-op. -/
theorem second_run_adds_nothing (env : Env) (start_page end_page : Int) (db : DB) :
    (scrape_hespress env start_page end_page
        ((scrape_hespress env start_page end_page db).1)).1
      = (scrape_hespress env start_page end_page db).1 ∧
    ((scrape_hespress env start_page end_page
        ((scrape_hespress env start_page end_page db).1)).1).length
      = ((scrape_hespress env start_page end_page db).1).length ∧
    (∀ (db' : DB) (s : Summary), article_exists db' s.postid = true →
      processSummary env db' s = db') ∧
    (∀ (db' : DB) (a : ArticleRecord), (∃ r ∈ db', r.postid = a.postid) →
      insert_article db' a = db') := by
  have hmain : (scrape_hespress env start_page end_page
      ((scrape_hespress env start_page end_page db).1)).1
      = (scrape_hespress env start_page end_page db).1 := by
    rw [scrape_hespress_spec, scrape_hespress_spec]
    exact foldl_processPage_of_covers _ _
      (fun p hp s hs => foldl_processPage_covers _ db p hp s hs)
  refine ⟨hmain, by rw [hmain], ?_, ?_⟩
  · intro db' s h
    unfold processSummary
    rw [if_pos h]
  · intro db' a h
    exact insert_article_of_conflict (.inl h)

/-- C4 (counterexample).  The claim says `extract_post_id_from_url` returns
`""` whenever the URL has no trailing `-<digits>.html` pattern at its end.
But Python's `$` also matches just before a final newline: this URL does not
end in `.html` (its last character is a newline), yet the digits are
returned. -/
theorem post_id_trailing_newline_match :
    extract_post_id_from_url "https://www.hespress.com/foo-bar-66055.html\n".data
      = "66055".data ∧
    ¬ (suffixHtml <:+ "https://www.hespress.com/foo-bar-66055.html\n".data) := by decide

/-- C4 (amended).  `extract_post_id_from_url` returns the digit string between
a hyphen and the suffix `.html` exactly when that pattern ends the URL or is
followed only by one final newline (Python `$` semantics): every URL of that
shape yields its digit run, every non-empty result arises from such a
decomposition, and on the spec's examples it returns `"66055"` and `""`. -/
theorem post_id_pattern_characterization :
    (∀ pre ds : PyStr, ds ≠ [] → (∀ c ∈ ds, c.isDigit) →
      extract_post_id_from_url (pre ++ ['-'] ++ ds ++ suffixHtml) = ds ∧
      extract_post_id_from_url (pre ++ ['-'] ++ ds ++ suffixHtml ++ ['\n']) = ds) ∧
    (∀ url : PyStr, extract_post_id_from_url url ≠ [] →
      ∃ pre ds, ds ≠ [] ∧ (∀ c ∈ ds, c.isDigit) ∧ extract_post_id_from_url url = ds ∧
        (url = pre ++ ['-'] ++ ds ++ suffixHtml ∨
         url = pre ++ ['-'] ++ ds ++ suffixHtml ++ ['\n'])) ∧
    extract_post_id_from_url "https://www.hespress.com/foo-bar-66055.html".data
      = "66055".data ∧
    extract_post_id_from_url "https://www.hespress.com/foo-bar.html".data = [] := by
  refine ⟨?_, extract_post_id_sound, by decide, by decide⟩
  intro pre ds h1 h2
  constructor
  · apply extract_of_target _ pre ds h1 h2
    rw [show pre ++ ['-'] ++ ds ++ suffixHtml = (pre ++ ['-'] ++ ds) ++ suffixHtml by simp]
    exact dollarTarget_html _
  · apply extract_of_target _ pre ds h1 h2
    rw [show pre ++ ['-'] ++ ds ++ suffixHtml ++ ['\n']
          = ((pre ++ ['-'] ++ ds) ++ suffixHtml) ++ ['\n'] by simp]
    exact dollarTarget_html_nl _

/-- C5 (counterexample).  The claim says every string containing a variant
month token normalizes to a string containing the corresponding canonical
token.  False when substitution sites overlap: `"مايوليوز"` contains the July
variant `"يوليوز"`, but the earlier `"ماي"→"مايو"` substitution destroys that
occurrence, and the canonical `"يوليو"` never appears in the output
(`normalize` yields `"مايووليوز"`). -/
theorem normalize_overlapping_variant_lost :
    ("يوليوز".data, "يوليو".data) ∈ MOROCCAN_MONTHS_MAP ∧
    "يوليوز".data <:+: "مايوليوز".data ∧
    normalize_moroccan_months "مايوليوز".data = "مايووليوز".data ∧
    ¬ ("يوليو".data <:+: normalize_moroccan_months "مايوليوز".data) := by decide

/-- C5 (amended).  For every entry of the normalization table, `normalize`
maps the variant token itself to its canonical token (so a date string whose
variant occurrence does not overlap another substitution site gains the
canonical token); and `normalize` leaves unchanged any string containing no
variant token, including empty and absent input. -/
theorem normalize_variant_table_sound_parts :
    (∀ p ∈ MOROCCAN_MONTHS_MAP, normalize_moroccan_months p.1 = p.2) ∧
    (∀ s : PyStr, (∀ p ∈ MOROCCAN_MONTHS_MAP, ¬ p.1 <:+: s) →
      normalize_moroccan_months s = s) ∧
    normalize_moroccan_months [] = [] ∧
    normalizeMoroccanMonthsOpt none = none := by
  refine ⟨by decide, ?_, rfl, rfl⟩
  intro s h
  unfold normalize_moroccan_months
  split
  · rfl
  · exact foldl_pyReplace_of_no_variant _ s h

/-- C6: the pipeline visits exactly the closed interval between `start_page`
and `end_page`, inclusive of both endpoints, starting at `start_page` and
ending at `end_page`, strictly descending when `start_page > end_page` and
strictly ascending otherwise; and `scrape_hespress` folds over exactly this
page sequence. -/
theorem pages_walk_closed_interval (s e : Int) :
    (∀ p : Int, p ∈ pageSequence s e ↔ min s e ≤ p ∧ p ≤ max s e) ∧
    (pageSequence s e).head? = some s ∧
    (pageSequence s e).getLast? = some e ∧
    (if s > e then (pageSequence s e).Pairwise (fun a b => a > b)
     else (pageSequence s e).Pairwise (fun a b => a < b)) ∧
    (∀ env db, (scrape_hespress env s e db).1
        = (pageSequence s e).foldl (processPage env) db) := by
  refine ⟨?_, ?_, ?_, ?_, ?_⟩
  · intro p
    unfold pageSequence
    by_cases hgt : s > e
    · rw [if_pos hgt]
      simp only [List.mem_map, List.mem_range]
      rw [min_eq_right (by omega : e ≤ s), max_eq_left (by omega : e ≤ s)]
      constructor
      · rintro ⟨i, hi, rfl⟩; omega
      · rintro ⟨h1, h2⟩; exact ⟨(s - p).toNat, by omega, by omega⟩
    · rw [if_neg hgt]
      simp only [List.mem_map, List.mem_range]
      rw [min_eq_left (by omega : s ≤ e), max_eq_right (by omega : s ≤ e)]
      constructor
      · rintro ⟨i, hi, rfl⟩; omega
      · rintro ⟨h1, h2⟩; exact ⟨(p - s).toNat, by omega, by omega⟩
  · unfold pageSequence
    by_cases hgt : s > e
    · rw [if_pos hgt, List.head?_eq_getElem?, List.getElem?_map,
        List.getElem?_range (by omega)]
      simp
    · rw [if_neg hgt, List.head?_eq_getElem?, List.getElem?_map,
        List.getElem?_range (by omega)]
      simp
  · unfold pageSequence
    by_cases hgt : s > e
    · rw [if_pos hgt, List.getLast?_eq_getElem?, List.getElem?_map]
      rw [List.length_map, List.length_range,
        List.getElem?_range (by omega : (s - e + 1).toNat - 1 < (s - e + 1).toNat)]
      simp only [Option.map_some']
      congr 1
      omega
    · rw [if_neg hgt, List.getLast?_eq_getElem?, List.getElem?_map]
      rw [List.length_map, List.length_range,
        List.getElem?_range (by omega : (e - s + 1).toNat - 1 < (e - s + 1).toNat)]
      simp only [Option.map_some']
      congr 1
      omega
  · unfold pageSequence
    by_cases hgt : s > e
    · rw [if_pos hgt, if_pos hgt, List.pairwise_map]
      refine (List.pairwise_lt_range _).imp ?_
      intro a b hab
      omega
    · rw [if_neg hgt, if_neg hgt, List.pairwise_map]
      refine (List.pairwise_lt_range _).imp ?_
      intro a b hab
      omega
  · intro env db
    rw [scrape_hespress_spec]

/-- C7: when the detail page provides a non-empty raw date and the listing
summary also provides a non-empty raw date, the record the pipeline persists
carries the detail page's date text, not the listing's; and that record is
exactly what is handed to the store. -/
theorem persisted_raw_date_prefers_detail (env : Env) (db : DB) (s : Summary)
    (dd : DetailData) (t : PyStr)
    (hdet : parse_article_content env s.article_url = some dd)
    (hd : dd.date_text_ar ≠ [])
    (hs : s.date_text_ar = some t) (ht : t ≠ [])
    (hnew : article_exists db s.postid = false) :
    (buildArticle env s).date_text_ar = some dd.date_text_ar ∧
    processSummary env db s = insert_article db (buildArticle env s) := by
  constructor
  · simp only [buildArticle, hdet, Option.map_some']
    simp [pyOr, hd]
  · unfold processSummary
    rw [if_neg (by rw [hnew]; exact Bool.false_ne_true)]

/-- C7 (witness): at the sample world's beta article both dates are non-empty
and the detail date wins. -/
theorem persisted_raw_date_prefers_detail_witness :
    (buildArticle envSample sumBeta).date_text_ar
      = some (parse_detail_fields docBeta).date_text_ar ∧
    processSummary envSample [] sumBeta
      = insert_article [] (buildArticle envSample sumBeta) :=
  persisted_raw_date_prefers_detail envSample [] sumBeta (parse_detail_fields docBeta)
    "الخميس 9 يناير 2025".data (by decide) (by decide) (by decide) (by decide) (by decide)

/-- C8: a listing card yields a summary exactly when it has a link node whose
`href` is non-empty after stripping; extraction is an append homomorphism (so
document order is preserved); and a document of three valid cards plus one
card missing its link yields exactly the three valid cards' summaries, in
order. -/
theorem listing_extract_drops_only_linkless_or_empty_href (c : Card) :
    ((cardSummary c).isSome ↔ ∃ a, c.link = some a ∧ pyStrip (a.href.getD []) ≠ []) ∧
    (∀ cs ds : List Card,
      parse_listing_cards (cs ++ ds) = parse_listing_cards cs ++ parse_listing_cards ds) ∧
    (∀ c1 b c2 c3 : Card, b.link = none →
      (cardSummary c1).isSome → (cardSummary c2).isSome → (cardSummary c3).isSome →
      parse_listing_cards [c1, b, c2, c3]
        = (cardSummary c1).toList ++ (cardSummary c2).toList ++ (cardSummary c3).toList) := by
  refine ⟨?_, ?_, ?_⟩
  · unfold cardSummary
    cases hl : c.link with
    | none => simp
    | some a =>
      by_cases hu : pyStrip (a.href.getD []) = []
      · simp [hu]
      · simp [hu]
  · intro cs ds
    simp [parse_listing_cards, List.filterMap_append]
  · intro c1 b c2 c3 hb h1 h2 h3
    have hbnone : cardSummary b = none := by
      unfold cardSummary
      rw [hb]
    obtain ⟨s1, hs1⟩ := Option.isSome_iff_exists.mp h1
    obtain ⟨s2, hs2⟩ := Option.isSome_iff_exists.mp h2
    obtain ⟨s3, hs3⟩ := Option.isSome_iff_exists.mp h3
    simp [parse_listing_cards, List.filterMap_cons, hbnone, hs1, hs2, hs3]

/-- C9: an article whose URL yields no postid (empty string) is never
dedup-skipped — the existence check is always `false` for it, so the detail
page is fetched and a record with empty key is built and handed to the store;
an insert whose empty key is already present is silently dropped, so a store
holding at most one empty-postid row still holds at most one after any run. -/
theorem empty_postid_store_behavior (env : Env) :
    (∀ db : DB, article_exists db [] = false) ∧
    (∀ (db : DB) (s : Summary), s.postid = [] →
      processSummary env db s = insert_article db (buildArticle env s)) ∧
    (∀ (db : DB) (a : ArticleRecord), a.postid = [] → (∃ r ∈ db, r.postid = []) →
      insert_article db a = db) ∧
    (∀ (start_page end_page : Int) (db : DB),
      db.countP (fun r => decide (r.postid = [])) ≤ 1 →
      ((scrape_hespress env start_page end_page db).1.countP
        (fun r => decide (r.postid = []))) ≤ 1) := by
  refine ⟨?_, ?_, ?_, ?_⟩
  · intro db; rfl
  · intro db s h
    unfold processSummary
    rw [if_neg]
    rw [article_exists_iff]
    rintro ⟨hne, -⟩
    exact hne h
  · intro db a h1 h2
    apply insert_article_of_conflict
    left
    obtain ⟨r, hr, he⟩ := h2
    exact ⟨r, hr, he.trans h1.symm⟩
  · intro start_page end_page db h
    rw [scrape_hespress_spec]
    exact foldl_processPage_emptyCount _ _ h

/-- C10: `normalize_moroccan_months` is not idempotent: on the May variant
`"ماي"` it yields the canonical `"مايو"`, which itself still contains the
variant `"ماي"` as a prefix and is rewritten again (to `"مايوو"`) by a second
application. -/
theorem normalize_not_idempotent :
    normalize_moroccan_months "ماي".data = "مايو".data ∧
    "ماي".data <+: "مايو".data ∧
    normalize_moroccan_months (normalize_moroccan_months "ماي".data)
      ≠ normalize_moroccan_months "ماي".data := by decide

end HespressScraper
